import Mathlib

/-!
Verification of the study progression engine of the EasyFlashcards2
repository (src/study/learn/world.rs, src/study/learn/world/card_list.rs,
src/study/learn/world/footer.rs, src/flashcards.rs), as a shallow
embedding in Lean 4.

Conventions of the embedding:
* Rust `u8`/`u32`/`usize` counters are modelled as `Nat`; saturating
  arithmetic is written out explicitly (`min (n + 1) 255` for
  `u8::saturating_add(1)`).
* A Rust function that can panic (`unreachable!`, out-of-bounds indexing,
  `unwrap` on `None`) is modelled as returning `Option`, with `none`
  standing for the panic.  A Rust function returning `Option` that never
  panics is modelled as a total Lean function with the same `Option`
  codomain.
* `rand::thread_rng` draws are modelled by an oracle `draws : Nat → Nat`;
  the k-th call of `gen_range(0..len)` (resp. `choose`) yields
  `draws k % len`, so every possible sequence of in-range draws is
  represented by some oracle.
-/


/-- `RecallSettings` from src/flashcards.rs: per-side configuration with the
two independent mode flags `matching` and `text`. -/
structure RecallSettings where
  matching : Bool
  text : Bool
deriving DecidableEq, Repr, Fintype

/-- `FooterColor` from src/study/learn/world/footer.rs: the four mastery
buckets of the footer bar. -/
inductive FooterColor where
  | Black
  | Red
  | Yellow
  | Green
deriving DecidableEq, Repr, Fintype

/-- `Side` from src/flashcards.rs. -/
inductive Side where
  | Term
  | Definition
deriving DecidableEq, Repr, Fintype

/-- `StudyType` from src/study/learn/world/card_list.rs: the stage of a study
item; the Boolean flags the confirmation repetition of the mode. -/
inductive StudyType where
  | Matching (confirming : Bool)
  | Text (confirming : Bool)
deriving DecidableEq, Repr, Fintype

/-- `StudyType::first` (card_list.rs lines 246-254): the entry stage for a
side with the given recall settings, `none` when no mode is enabled. -/
def StudyType.first (recall_settings : RecallSettings) : Option StudyType :=
  match recall_settings.matching, recall_settings.text with
  | false, false => none
  | true, _ => some (.Matching false)
  | false, true => some (.Text false)

/-- `StudyType::progress` (card_list.rs lines 256-272).  The source returns
`(Option<StudyType>, FooterColor)` and panics (`unreachable!`) on every
`(stage, modes)` pair not listed; the outer `Option` here models that panic
as `none`.  The inner `none` is the removal ("mastered") signal of the
source. -/
def StudyType.progress (s : StudyType) (recall_settings : RecallSettings) :
    Option (Option StudyType × FooterColor) :=
  match s, recall_settings.matching, recall_settings.text with
  | .Matching false, true, false => some (some (.Matching true), .Yellow)
  | .Matching true, true, false => some (none, .Green)
  | .Text false, false, true => some (some (.Text true), .Yellow)
  | .Text true, false, true => some (none, .Green)
  | .Matching false, true, true => some (some (.Text false), .Red)
  | .Text false, true, true => some (some (.Text true), .Yellow)
  | .Text true, true, true => some (none, .Green)
  | _, _, _ => none

/-- `StudyType::regress` (card_list.rs lines 274-287).  The source is total:
its final arm is `_ => None`, so `none` here is the source's own
"no transition" result, not a panic — `regress` never panics. -/
def StudyType.regress (s : StudyType) (recall_settings : RecallSettings) :
    Option (StudyType × FooterColor) :=
  match s, recall_settings.matching, recall_settings.text with
  | .Matching true, true, false => some (.Matching false, .Black)
  | .Text true, false, true => some (.Text false, .Black)
  | .Text false, true, true => some (.Matching false, .Black)
  | .Text true, true, true => some (.Text false, .Red)
  | _, _, _ => none

/-- Number of `progress` calls from a given stage until the removal signal,
`none` if a panic is hit or the fuel runs out. -/
def stepsToRemovalAux (recall_settings : RecallSettings) :
    Nat → StudyType → Option Nat
  | 0, _ => none
  | fuel + 1, s =>
    match s.progress recall_settings with
    | some (none, _) => some 1
    | some (some s2, _) => (stepsToRemovalAux recall_settings fuel s2).map (· + 1)
    | none => none

/-- Number of `progress` calls from the entry stage until the removal
signal. -/
def stepsToRemoval (recall_settings : RecallSettings) : Option Nat :=
  (StudyType.first recall_settings).bind (stepsToRemovalAux recall_settings 8)

/-- The seven `(stage, modes)` pairs covered by the progression table of
`StudyType::progress` (card_list.rs lines 260-268). -/
def coveredByTable (s : StudyType) (recall_settings : RecallSettings) : Prop :=
  s.progress recall_settings ≠ none

instance (s : StudyType) (recall_settings : RecallSettings) :
    Decidable (coveredByTable s recall_settings) := by
  unfold coveredByTable
  infer_instance

/-- `Footer` from src/study/learn/world/footer.rs: the four bucket counts
(`vals: [u32; 4]`); the layout fields `width` and `y` only drive rendering
and are omitted. -/
structure Footer where
  black : Nat
  red : Nat
  yellow : Nat
  green : Nat
deriving DecidableEq, Repr

/-- The bucket count of a color (`vals[color as usize]`). -/
def Footer.count (f : Footer) : FooterColor → Nat
  | .Black => f.black
  | .Red => f.red
  | .Yellow => f.yellow
  | .Green => f.green

/-- Write one bucket count (`vals[color as usize] = n`). -/
def Footer.setCount (f : Footer) : FooterColor → Nat → Footer
  | .Black, n => { f with black := n }
  | .Red, n => { f with red := n }
  | .Yellow, n => { f with yellow := n }
  | .Green, n => { f with green := n }

/-- `Footer::move` (footer.rs lines 29-34): increments `dst`, decrements
`curr`, in that order (so `curr = dst` is a net no-op). -/
def Footer.move (f : Footer) (curr dst : FooterColor) : Footer :=
  let f1 := f.setCount dst (f.count dst + 1)
  f1.setCount curr (f1.count curr - 1)

/-- Sum of the four bucket counts. -/
def Footer.total (f : Footer) : Nat :=
  f.black + f.red + f.yellow + f.green

/-- `Footer::new` (footer.rs lines 19-27): `count` black items, nothing
else. -/
def Footer.new (count : Nat) : Footer :=
  ⟨count, 0, 0, 0⟩

/-- `Item` from card_list.rs lines 14-22.  The `card: &Flashcard` reference
is modelled by a numeric card id; fail counters are `Nat`s kept below the
`u8` saturation bound by `failCountInc`. -/
structure Item where
  cardId : Nat
  side : Side
  next_study_type : StudyType
  footer_color : FooterColor
  match_fails : Nat
  text_fails : Nat
deriving DecidableEq, Repr

/-- `FailedItem` from card_list.rs lines 24-30. -/
structure FailedItem where
  cardId : Nat
  side : Side
  match_fails : Nat
  text_fails : Nat
deriving DecidableEq, Repr

/-- `From<&Item> for FailedItem` (card_list.rs lines 32-41). -/
def FailedItem.ofItem (item : Item) : FailedItem :=
  ⟨item.cardId, item.side, item.match_fails, item.text_fails⟩

/-- `FailedItem::total_fails` (card_list.rs lines 43-47): saturating `u8`
addition of the two fail counters. -/
def FailedItem.total_fails (f : FailedItem) : Nat :=
  min (f.match_fails + f.text_fails) 255

/-- `FailCount::inc` (card_list.rs lines 319-321): saturating `u8`
increment. -/
def failCountInc (n : Nat) : Nat :=
  min (n + 1) 255

/-- `item.match_fails.has_failed() || item.text_fails.has_failed()`
(`FailCount::has_failed` is `self.0 > 0`, card_list.rs lines 323-325). -/
def Item.hasFailed (item : Item) : Bool :=
  item.match_fails != 0 || item.text_fails != 0

/-- `CardList` from card_list.rs lines 73-78.  The `set: &Set` reference is
represented by the data the card list reads from it: the two per-side
`RecallSettings`. -/
structure CardList where
  cards : List Item
  removed : List FailedItem
  recall_t : RecallSettings
  recall_d : RecallSettings
deriving DecidableEq, Repr

/-- Modelled from the spec: `Set::recall_settings` is not under src/ (only
its callers, e.g. card_list.rs line 201, are).  Per the spec, a set carries
`recall_t` governing recall of the term and `recall_d` governing recall of
the definition. -/
def CardList.recall_settings (cl : CardList) : Side → RecallSettings
  | .Term => cl.recall_t
  | .Definition => cl.recall_d

/-- `Vec::swap_remove(i)`: overwrite slot `i` with the last element and pop
the last element.  Callers in the source only reach it with `i` in
bounds. -/
def swapRemove (l : List α) (i : Nat) : List α :=
  match l.getLast? with
  | none => l
  | some last => (l.set i last).dropLast

/-- `CardList::from_set` (card_list.rs lines 81-111): one item per card for
each side whose recall settings enable a mode, term items first, all seeded
at the side's entry stage with color Black and zero fail counts.  Cards are
identified by their index in the set. -/
def CardList.from_set (numCards : Nat) (recall_t recall_d : RecallSettings) :
    CardList :=
  let termItems : List Item :=
    match StudyType.first recall_t with
    | some st => (List.range numCards).map (fun i => ⟨i, .Term, st, .Black, 0, 0⟩)
    | none => []
  let defItems : List Item :=
    match StudyType.first recall_d with
    | some st => (List.range numCards).map (fun i => ⟨i, .Definition, st, .Black, 0, 0⟩)
    | none => []
  ⟨termItems ++ defItems, [], recall_t, recall_d⟩

/-- `CardList::remaining_unstudied` (card_list.rs lines 204-206). -/
def CardList.remaining_unstudied (cl : CardList) : Nat :=
  cl.cards.length

/-- `CardList::progress` (card_list.rs lines 131-154).  `none` models a
panic: either the token is out of bounds (`self.cards[index]`) or
`StudyType::progress` hit its `unreachable!`.  On the removal signal the
item is swap-removed and pushed onto the `removed` ledger iff it ever
failed; the footer records the color move either way. -/
def CardList.progress (cl : CardList) (tok : Nat) (footer : Footer) :
    Option (CardList × Footer) :=
  match cl.cards[tok]? with
  | none => none
  | some card =>
    let old_color := card.footer_color
    match card.next_study_type.progress (cl.recall_settings card.side) with
    | none => none
    | some (some next_study_type, color) =>
      let card2 : Item :=
        { card with next_study_type := next_study_type, footer_color := color }
      some ({ cl with cards := cl.cards.set tok card2 },
            footer.move old_color color)
    | some (none, color) =>
      some ({ cl with
                cards := swapRemove cl.cards tok,
                removed :=
                  if card.hasFailed then cl.removed ++ [FailedItem.ofItem card]
                  else cl.removed },
            footer.move old_color color)

/-- `CardList::regress` (card_list.rs lines 156-169).  `none` models the
out-of-bounds panic only; when `StudyType::regress` reports no transition
the card list and footer are returned unchanged. -/
def CardList.regress (cl : CardList) (tok : Nat) (footer : Footer) :
    Option (CardList × Footer) :=
  match cl.cards[tok]? with
  | none => none
  | some card =>
    let old_color := card.footer_color
    match card.next_study_type.regress (cl.recall_settings card.side) with
    | none => some (cl, footer)
    | some (next_study_type, new_color) =>
      let card2 : Item :=
        { card with next_study_type := next_study_type,
                    footer_color := new_color }
      some ({ cl with cards := cl.cards.set tok card2 },
            footer.move old_color new_color)

/-- `CardList::fail` (card_list.rs lines 171-177): saturating increment of
the fail counter selected by the item's current `StudyType`.  `none` models
the out-of-bounds panic. -/
def CardList.fail (cl : CardList) (tok : Nat) : Option CardList :=
  match cl.cards[tok]? with
  | none => none
  | some card =>
    match card.next_study_type with
    | .Matching _ =>
      let card2 : Item := { card with match_fails := failCountInc card.match_fails }
      some { cl with cards := cl.cards.set tok card2 }
    | .Text _ =>
      let card2 : Item := { card with text_fails := failCountInc card.text_fails }
      some { cl with cards := cl.cards.set tok card2 }

/-- `CardList::fails` (card_list.rs lines 208-213): extends the removed
ledger with every currently active item that has a nonzero fail counter and
returns the updated card list (whose `removed` field is the returned
slice). -/
def CardList.fails (cl : CardList) : CardList :=
  { cl with removed :=
      cl.removed ++ (cl.cards.filter Item.hasFailed).map FailedItem.ofItem }

/-- One externally drivable card-list operation. -/
inductive Op where
  | progress (tok : Nat)
  | regress (tok : Nat)
  | fail (tok : Nat)
deriving DecidableEq, Repr

/-- Apply one operation to the session state, `none` on panic. -/
def stepOp (s : CardList × Footer) : Op → Option (CardList × Footer)
  | .progress tok => s.1.progress tok s.2
  | .regress tok => s.1.regress tok s.2
  | .fail tok => (s.1.fail tok).map (fun cl => (cl, s.2))

/-- Run a sequence of operations, `none` as soon as one panics. -/
def runOps (s : CardList × Footer) : List Op → Option (CardList × Footer)
  | [] => some s
  | op :: ops => (stepOp s op).bind (fun s2 => runOps s2 ops)

/-- Session start: the card list of `World::new` together with the footer
`Footer::new(card_list.remaining_unstudied())` (world.rs line 95). -/
def initState (numCards : Nat) (recall_t recall_d : RecallSettings) :
    CardList × Footer :=
  let cl := CardList.from_set numCards recall_t recall_d
  (cl, Footer.new cl.remaining_unstudied)

/-- Number of active items currently in a given footer bucket. -/
def colorCount (cards : List Item) (c : FooterColor) : Nat :=
  cards.countP (fun item => item.footer_color == c)

/-- The footer bookkeeping invariant: every bucket count equals the number
of active items of that color, except Green, which additionally holds every
item removed so far (`n0` is the session's initial item count). -/
def FooterInv (n0 : Nat) (s : CardList × Footer) : Prop :=
  s.1.cards.length ≤ n0 ∧
  ∀ c, s.2.count c =
    colorCount s.1.cards c + (if c = .Green then n0 - s.1.cards.length else 0)

/-- `usize::MAX`: the sentinel of `last.map(|s| s.0).unwrap_or(usize::MAX)`
(card_list.rs line 117) on a 64-bit target. -/
def usizeMax : Nat := 2 ^ 64 - 1

/-- The retry loop of `CardList::next_unstudied` (card_list.rs lines
118-123): while `index == lastv && counter < 12`, draw
`index = gen_range(0..len)` (the `counter`-th oracle draw, reduced mod
`len`) and increment `counter`.  The structural `fuel` argument only bounds
the recursion; run with `fuel = 12 - counter` it never cuts the loop short,
since the loop condition itself stops at `counter = 12`. -/
def nuGo (len lastv : Nat) (draws : Nat → Nat) :
    Nat → Nat → Nat → Nat
  | 0, _, index => index
  | fuel + 1, counter, index =>
    if index = lastv ∧ counter < 12 then
      nuGo len lastv draws fuel (counter + 1) (draws counter % len)
    else index

/-- `CardList::next_unstudied` (card_list.rs lines 113-129): `none` iff the
active list is empty, otherwise the retry loop's result wrapped as a
token. -/
def CardList.next_unstudied (cl : CardList) (last : Option Nat)
    (draws : Nat → Nat) : Option Nat :=
  if cl.cards.length = 0 then none
  else some (nuGo cl.cards.length (last.getD usizeMax) draws 12 0
    (last.getD usizeMax))

/-- One distractor slot of `CardList::matching_answers_for` (the inner
`for _ in 0..12` loop, card_list.rs lines 184-193): up to `attempts` oracle
draws from `deck` (the display texts of the set's cards for the tested
side), stopping early at the first draw not already among `prev`
(`answers[..i]`); when the attempts run out the last draw is kept even if it
is a duplicate.  Returns the chosen text and the next oracle counter. -/
def fillSlot (deck : List String) (prev : List String) (draws : Nat → Nat) :
    Nat → Nat → String × Nat
  | 0, ctr => (deck.getD (draws ctr % deck.length) "", ctr + 1)
  | attempts + 1, ctr =>
    let a := deck.getD (draws ctr % deck.length) ""
    if attempts = 0 ∨ a ∉ prev then (a, ctr + 1)
    else fillSlot deck prev draws attempts (ctr + 1)

/-- `CardList::matching_answers_for` (card_list.rs lines 179-198) before the
final shuffle: slot 0 is the display text of the tested side of the studied
card (`correct`); slots 1-3 are drawn by `fillSlot` with 12 attempts each,
threading the oracle counter.  The concluding `answers.shuffle(&mut rng)` is
modelled in the claim by quantifying over an arbitrary permutation of this
list. -/
def matching_answers_for (deck : List String) (correct : String)
    (draws : Nat → Nat) : List String :=
  let a1p := fillSlot deck [correct] draws 12 0
  let a2p := fillSlot deck [correct, a1p.1] draws 12 a1p.2
  let a3p := fillSlot deck [correct, a1p.1, a2p.1] draws 12 a2p.2
  [correct, a1p.1, a2p.1, a3p.1]

/-- All entries of the removed-items ledger have a nonzero fail count. -/
def LedgerPos (cl : CardList) : Prop :=
  ∀ fi ∈ cl.removed, 0 < fi.match_fails + fi.text_fails

/-- `WorldType` from world.rs lines 52-66.  The `hidden_question` field of
`TextFailed` only drives rendering and is omitted. -/
inductive WorldType where
  | Matching (studying : Nat) (failed : Bool)
  | Text (studying : Nat)
  | TextFailed (studying : Nat)
  | WaitingForKeypress
deriving DecidableEq, Repr

/-- `World` from world.rs lines 39-50 restricted to the study-logic fields;
the rendering widgets and terminal settings are omitted.  The two pairs of
tallies model the per-side `matches_made: [u32; 2]` and
`texts_entered: [u32; 2]` arrays. -/
structure World where
  card_list : CardList
  footer : Footer
  matches_made_t : Nat
  matches_made_d : Nat
  texts_entered_t : Nat
  texts_entered_d : Nat
  typ : Option WorldType
deriving DecidableEq, Repr

/-- `self.matches_made[card.side as usize] += 1` (world.rs lines 217,
230). -/
def World.bumpMatches (w : World) : Side → World
  | .Term => { w with matches_made_t := w.matches_made_t + 1 }
  | .Definition => { w with matches_made_d := w.matches_made_d + 1 }

/-- The `'1'..='4'` branch of `World::key_pressed` in the `Matching` state
(world.rs lines 199-243), rendering dropped.  Whether the chosen answer box
text matches an accepted answer is decided by `FlashcardText::contains`,
whose definition is not under src/ (only its call sites are); its outcome is
supplied as the `isCorrect` oracle.  Modelled from the spec: `contains` is
the pure answer matcher of §4.1.  On a correct answer the state becomes
`WaitingForKeypress` and, if this presentation had no earlier wrong guess,
the tally and `progress` run; on a wrong answer, only if this is the first
one of the presentation, the `failed` flag is set and the tally, `fail` and
`regress` run.  `none` models a panic. -/
def World.matchingGuess (w : World) (isCorrect : Bool) : Option World :=
  match w.typ with
  | some (.Matching studying failed) =>
    match w.card_list.cards[studying]? with
    | none => none
    | some card =>
      match isCorrect with
      | true =>
        let w1 := { w with typ := some .WaitingForKeypress }
        match failed with
        | true => some w1
        | false =>
          let w2 := w1.bumpMatches card.side
          match w2.card_list.progress studying w2.footer with
          | none => none
          | some (cl2, f2) => some { w2 with card_list := cl2, footer := f2 }
      | false =>
        match failed with
        | true => some w
        | false =>
          let w2 := w.bumpMatches card.side
          let w3 := { w2 with typ := some (.Matching studying true) }
          match w3.card_list.fail studying with
          | none => none
          | some cl1 =>
            match cl1.regress studying w3.footer with
            | none => none
            | some (cl2, f2) => some { w3 with card_list := cl2, footer := f2 }
  | _ => none

/-- The Shift-Tab (BackTab) override in the `TextFailed` state (world.rs
lines 289-296): two consecutive `progress` calls on the studied item.  The
subsequent `study_next` call only selects and renders the next prompt
(modelled separately by `CardList.next_unstudied`) and is omitted; `none`
models a panic in either `progress` call. -/
def World.textFailedBackTab (w : World) : Option World :=
  match w.typ with
  | some (.TextFailed studying) =>
    match w.card_list.progress studying w.footer with
    | none => none
    | some (cl1, f1) =>
      match cl1.progress studying f1 with
      | none => none
      | some (cl2, f2) => some { w with card_list := cl2, footer := f2 }
  | _ => none

/-- Claim C1: with the recall settings of a side fixed, repeated `progress`
calls from the entry stage walk exactly the mode table — `Matching false`,
`Matching true`, removed with colors Yellow then Green when only matching is
enabled; `Text false`, `Text true`, removed likewise when only text is
enabled; `Matching false`, `Text false`, `Text true`, removed with colors
Red, Yellow, Green when both are enabled — so the removal/Green signal comes
after exactly 2 calls in a single-mode configuration and exactly 3 calls
when both modes are enabled. -/
theorem progress_walks_mode_table :
    (StudyType.first ⟨true, false⟩ = some (.Matching false) ∧
      (StudyType.Matching false).progress ⟨true, false⟩ =
        some (some (.Matching true), .Yellow) ∧
      (StudyType.Matching true).progress ⟨true, false⟩ = some (none, .Green) ∧
      stepsToRemoval ⟨true, false⟩ = some 2) ∧
    (StudyType.first ⟨false, true⟩ = some (.Text false) ∧
      (StudyType.Text false).progress ⟨false, true⟩ =
        some (some (.Text true), .Yellow) ∧
      (StudyType.Text true).progress ⟨false, true⟩ = some (none, .Green) ∧
      stepsToRemoval ⟨false, true⟩ = some 2) ∧
    (StudyType.first ⟨true, true⟩ = some (.Matching false) ∧
      (StudyType.Matching false).progress ⟨true, true⟩ =
        some (some (.Text false), .Red) ∧
      (StudyType.Text false).progress ⟨true, true⟩ =
        some (some (.Text true), .Yellow) ∧
      (StudyType.Text true).progress ⟨true, true⟩ = some (none, .Green) ∧
      stepsToRemoval ⟨true, true⟩ = some 3) := by
  decide

/-- Claim C2: with both modes enabled, `regress` at `Text false` yields
`Matching false`/Black (a two-stage drop), at `Text true` yields
`Text false`/Red (a one-stage drop), and at `Matching false` gives no
transition; in a single-mode configuration `regress` at the first stage is a
no-op and at the confirmation stage drops back one stage to Black. -/
theorem regress_table :
    ((StudyType.Text false).regress ⟨true, true⟩ =
        some (.Matching false, .Black) ∧
      (StudyType.Text true).regress ⟨true, true⟩ = some (.Text false, .Red) ∧
      (StudyType.Matching false).regress ⟨true, true⟩ = none) ∧
    ((StudyType.Matching false).regress ⟨true, false⟩ = none ∧
      (StudyType.Matching true).regress ⟨true, false⟩ =
        some (.Matching false, .Black)) ∧
    ((StudyType.Text false).regress ⟨false, true⟩ = none ∧
      (StudyType.Text true).regress ⟨false, true⟩ =
        some (.Text false, .Black)) := by
  decide

/-- Counterexample to claim C5: `(Matching true, matching and text both
enabled)` is a pair not covered by the progression table, yet `regress`
does not abort there — it returns the very same "no transition" value it
returns for the legitimately regression-free first stage of the
matching-only configuration, silently ignoring the invalid state. -/
theorem regress_silent_on_invalid_state :
    ¬ coveredByTable (.Matching true) ⟨true, true⟩ ∧
    (StudyType.Matching true).regress ⟨true, true⟩ =
      (StudyType.Matching false).regress ⟨true, false⟩ := by
  decide

/-- Claim C5 (amended): for every `(StudyType, RecallSettings)` pair not
covered by the progression table, `progress` aborts with a fatal assertion
(the source's `unreachable!`, modelled as `none`); `regress`, however, never
aborts: on every uncovered pair it returns the ordinary "no transition"
result, silently treating the invalid state as a no-op. -/
theorem progress_panics_regress_noops_on_invalid (s : StudyType)
    (rs : RecallSettings) (h : ¬ coveredByTable s rs) :
    s.progress rs = none ∧ s.regress rs = none := by
  constructor
  · by_contra hne
    exact h hne
  · revert h
    cases s with
    | Matching b => cases b <;> cases rs with
      | mk m t => cases m <;> cases t <;> decide
    | Text b => cases b <;> cases rs with
      | mk m t => cases m <;> cases t <;> decide

/-- Witness for the amended claim C5 at the concrete uncovered pair
`(Matching true, both modes enabled)`. -/
theorem progress_panics_regress_noops_on_invalid_witness :
    (StudyType.Matching true).progress ⟨true, true⟩ = none ∧
    (StudyType.Matching true).regress ⟨true, true⟩ = none :=
  progress_panics_regress_noops_on_invalid (.Matching true) ⟨true, true⟩
    (by decide)

theorem countP_set_add (p : α → Bool) (l : List α) (i : Nat) (a : α)
    (h : i < l.length) :
    (l.set i a).countP p + (if p (l.get ⟨i, h⟩) then 1 else 0) =
      l.countP p + (if p a then 1 else 0) := by
  induction l generalizing i with
  | nil => simp at h
  | cons x xs ih =>
    cases i with
    | zero =>
      simp only [List.set, List.countP_cons, List.get]
      omega
    | succ n =>
      simp only [List.set, List.countP_cons, List.get]
      have := ih n (by simpa using h)
      omega

theorem countP_dropLast_add (p : α → Bool) (l : List α) (h : l ≠ []) :
    l.dropLast.countP p + (if p (l.getLast h) then 1 else 0) = l.countP p := by
  conv_rhs => rw [← List.dropLast_append_getLast h]
  rw [List.countP_append]
  simp [List.countP_cons]

theorem getLast_set (l : List α) (i : Nat) (a : α) (h : i < l.length)
    (h2 : l.set i a ≠ []) (hne : l ≠ []) :
    (l.set i a).getLast h2 = if i = l.length - 1 then a else l.getLast hne := by
  rw [List.getLast_eq_getElem, List.getLast_eq_getElem]
  simp only [List.length_set]
  rw [List.getElem_set]

theorem countP_swapRemove (p : α → Bool) (l : List α) (i : Nat)
    (h : i < l.length) :
    (swapRemove l i).countP p + (if p (l.get ⟨i, h⟩) then 1 else 0) =
      l.countP p := by
  have hne : l ≠ [] := List.ne_nil_of_length_pos (Nat.lt_of_le_of_lt (Nat.zero_le i) h)
  unfold swapRemove
  rw [List.getLast?_eq_getLast_of_ne_nil hne]
  have hset_ne : l.set i (l.getLast hne) ≠ [] := by
    intro hc
    have := congrArg List.length hc
    simp at this
    simp [this] at h
  have h1 := countP_dropLast_add p (l.set i (l.getLast hne)) hset_ne
  have h2 := countP_set_add p l i (l.getLast hne) h
  have hlast : (l.set i (l.getLast hne)).getLast hset_ne = l.getLast hne := by
    rw [getLast_set l i (l.getLast hne) h hset_ne hne]
    split <;> rfl
  rw [hlast] at h1
  by_cases hpl : p (l.getLast hne) <;> by_cases hpi : p (l.get ⟨i, h⟩) <;>
    simp [hpl, hpi] at h1 h2 ⊢ <;> omega

theorem length_swapRemove (l : List α) (i : Nat) (h : i < l.length) :
    (swapRemove l i).length = l.length - 1 := by
  have hne : l ≠ [] := List.ne_nil_of_length_pos (Nat.lt_of_le_of_lt (Nat.zero_le i) h)
  unfold swapRemove
  rw [List.getLast?_eq_getLast_of_ne_nil hne]
  simp

theorem if_flip [DecidableEq α] (a b : α) (x y : β) :
    (if a = b then x else y) = (if b = a then x else y) := by
  by_cases hab : a = b
  · simp [hab]
  · simp [hab, Ne.symm hab]

theorem colorCount_set (cards : List Item) (tok : Nat) (card2 : Item)
    (c : FooterColor) (h : tok < cards.length) :
    colorCount (cards.set tok card2) c +
        (if c = (cards.get ⟨tok, h⟩).footer_color then 1 else 0) =
      colorCount cards c + (if c = card2.footer_color then 1 else 0) := by
  have hset := countP_set_add (fun item => item.footer_color == c)
    cards tok card2 h
  simp only [beq_iff_eq] at hset
  unfold colorCount
  rw [if_flip c (cards.get ⟨tok, h⟩).footer_color, if_flip c card2.footer_color]
  exact hset

theorem colorCount_swapRemove (cards : List Item) (tok : Nat)
    (c : FooterColor) (h : tok < cards.length) :
    colorCount (swapRemove cards tok) c +
        (if c = (cards.get ⟨tok, h⟩).footer_color then 1 else 0) =
      colorCount cards c := by
  have hrem := countP_swapRemove (fun item => item.footer_color == c)
    cards tok h
  simp only [beq_iff_eq] at hrem
  unfold colorCount
  rw [if_flip c (cards.get ⟨tok, h⟩).footer_color]
  exact hrem

theorem Footer.count_move (f : Footer) (curr dst c : FooterColor) :
    (f.move curr dst).count c =
      f.count c + (if c = dst then 1 else 0) - (if c = curr then 1 else 0) := by
  cases curr <;> cases dst <;> cases c <;>
    simp [Footer.move, Footer.count, Footer.setCount]

theorem inv_of_parts (n0 : Nat) (cl2 : CardList) (f2 : Footer)
    (hlen : cl2.cards.length ≤ n0)
    (hcnt : ∀ c, f2.count c = colorCount cl2.cards c +
      (if c = .Green then n0 - cl2.cards.length else 0)) :
    FooterInv n0 (cl2, f2) :=
  ⟨hlen, hcnt⟩

theorem inv_set_move (n0 : Nat) (cl : CardList) (f : Footer) (tok : Nat)
    (card2 : Item) (h : tok < cl.cards.length) (hinv : FooterInv n0 (cl, f))
    (cl2 : CardList) (hcl2 : cl2.cards = cl.cards.set tok card2)
    (f2 : Footer)
    (hf2 : f2 = f.move (cl.cards.get ⟨tok, h⟩).footer_color card2.footer_color) :
    FooterInv n0 (cl2, f2) := by
  apply inv_of_parts
  · rw [hcl2]
    simpa [List.length_set] using hinv.1
  · intro c
    have hset := colorCount_set cl.cards tok card2 c h
    have hc : f.count c = colorCount cl.cards c +
        (if c = .Green then n0 - cl.cards.length else 0) := hinv.2 c
    rw [hf2, hcl2, Footer.count_move, hc]
    simp only [List.length_set]
    split_ifs at hset ⊢ <;> omega

theorem inv_remove_move (n0 : Nat) (cl : CardList) (f : Footer) (tok : Nat)
    (h : tok < cl.cards.length) (hinv : FooterInv n0 (cl, f))
    (cl2 : CardList) (hcl2 : cl2.cards = swapRemove cl.cards tok)
    (f2 : Footer)
    (hf2 : f2 = f.move (cl.cards.get ⟨tok, h⟩).footer_color .Green) :
    FooterInv n0 (cl2, f2) := by
  have hlen := length_swapRemove cl.cards tok h
  have hle : cl.cards.length ≤ n0 := hinv.1
  apply inv_of_parts
  · rw [hcl2, hlen]
    omega
  · intro c
    have hrem := colorCount_swapRemove cl.cards tok c h
    have hc : f.count c = colorCount cl.cards c +
        (if c = .Green then n0 - cl.cards.length else 0) := hinv.2 c
    rw [hf2, hcl2, Footer.count_move, hc, hlen]
    split_ifs at hrem ⊢ <;> omega

/-- Every removal signal of the progression table carries the color
Green. -/
theorem progress_removal_green :
    ∀ (s : StudyType) (rs : RecallSettings) (c : FooterColor),
      s.progress rs = some (none, c) → c = .Green := by
  decide

theorem colorCount_set_same (cards : List Item) (tok : Nat) (card2 : Item)
    (c : FooterColor) (h : tok < cards.length)
    (hcol : card2.footer_color = (cards.get ⟨tok, h⟩).footer_color) :
    colorCount (cards.set tok card2) c = colorCount cards c := by
  have hset := colorCount_set cards tok card2 c h
  rw [hcol] at hset
  omega

theorem inv_set_same_cards (n0 : Nat) (cl cl2 : CardList) (f : Footer)
    (tok : Nat) (card2 : Item) (h : tok < cl.cards.length)
    (hcol : card2.footer_color = (cl.cards.get ⟨tok, h⟩).footer_color)
    (hinv : FooterInv n0 (cl, f))
    (hcl2 : cl2.cards = cl.cards.set tok card2) :
    FooterInv n0 (cl2, f) := by
  apply inv_of_parts
  · rw [hcl2]
    simpa [List.length_set] using hinv.1
  · intro c
    have hcc := colorCount_set_same cl.cards tok card2 c h hcol
    have hc : f.count c = colorCount cl.cards c +
        (if c = .Green then n0 - cl.cards.length else 0) := hinv.2 c
    rw [hcl2, hcc, hc]
    simp [List.length_set]

theorem inv_fail (n0 : Nat) (cl cl2 : CardList) (f : Footer) (tok : Nat)
    (hinv : FooterInv n0 (cl, f)) (hstep : cl.fail tok = some cl2) :
    FooterInv n0 (cl2, f) := by
  unfold CardList.fail at hstep
  split at hstep
  · exact absurd hstep (by simp)
  · rename_i card hget
    obtain ⟨htok, hcard⟩ := List.getElem?_eq_some_iff.mp hget
    split at hstep
    · simp only [Option.some.injEq] at hstep
      subst hstep
      exact inv_set_same_cards n0 cl _ f tok _ htok (by simp [hcard]) hinv rfl
    · simp only [Option.some.injEq] at hstep
      subst hstep
      exact inv_set_same_cards n0 cl _ f tok _ htok (by simp [hcard]) hinv rfl

theorem stepOp_inv (n0 : Nat) (cl : CardList) (f : Footer)
    (s2 : CardList × Footer) (op : Op) (hinv : FooterInv n0 (cl, f))
    (hstep : stepOp (cl, f) op = some s2) : FooterInv n0 s2 := by
  cases op with
  | progress tok =>
    simp only [stepOp] at hstep
    unfold CardList.progress at hstep
    split at hstep
    · exact absurd hstep (by simp)
    · rename_i card hget
      obtain ⟨htok, hcard⟩ := List.getElem?_eq_some_iff.mp hget
      have hget2 : cl.cards.get ⟨tok, htok⟩ = card := hcard
      split at hstep
      · exact absurd hstep (by simp)
      · rename_i st2 color hprog
        dsimp only at hstep
        simp only [Option.some.injEq] at hstep
        subst hstep
        refine inv_set_move n0 cl f tok
          { card with next_study_type := st2, footer_color := color } htok hinv
          _ rfl _ ?_
        rw [hget2]
      · rename_i color hprog
        dsimp only at hstep
        simp only [Option.some.injEq] at hstep
        subst hstep
        have hgreen := progress_removal_green card.next_study_type
          (cl.recall_settings card.side) color hprog
        subst hgreen
        refine inv_remove_move n0 cl f tok htok hinv _ rfl _ ?_
        rw [hget2]
  | regress tok =>
    simp only [stepOp] at hstep
    unfold CardList.regress at hstep
    split at hstep
    · exact absurd hstep (by simp)
    · rename_i card hget
      obtain ⟨htok, hcard⟩ := List.getElem?_eq_some_iff.mp hget
      have hget2 : cl.cards.get ⟨tok, htok⟩ = card := hcard
      split at hstep
      · simp only [Option.some.injEq] at hstep
        subst hstep
        exact hinv
      · rename_i st2 color hreg
        dsimp only at hstep
        simp only [Option.some.injEq] at hstep
        subst hstep
        refine inv_set_move n0 cl f tok
          { card with next_study_type := st2, footer_color := color } htok hinv
          _ rfl _ ?_
        rw [hget2]
  | fail tok =>
    simp only [stepOp] at hstep
    cases hfail : cl.fail tok with
    | none => rw [hfail] at hstep; exact absurd hstep (by simp)
    | some cl2 =>
      rw [hfail] at hstep
      simp at hstep
      subst hstep
      exact inv_fail n0 cl cl2 f tok hinv hfail

theorem runOps_inv (n0 : Nat) (ops : List Op) (s s2 : CardList × Footer)
    (hinv : FooterInv n0 s) (h : runOps s ops = some s2) : FooterInv n0 s2 := by
  induction ops generalizing s with
  | nil =>
    unfold runOps at h
    simp only [Option.some.injEq] at h
    subst h
    exact hinv
  | cons op ops ih =>
    obtain ⟨cl, f⟩ := s
    unfold runOps at h
    cases hstep : stepOp (cl, f) op with
    | none => rw [hstep] at h; exact absurd h (by simp)
    | some smid =>
      rw [hstep] at h
      simp only [Option.some_bind] at h
      exact ih smid (stepOp_inv n0 cl f smid op hinv hstep) h

theorem colorCount_all_black (cards : List Item)
    (hall : ∀ item ∈ cards, item.footer_color = .Black) (c : FooterColor) :
    colorCount cards c = if c = .Black then cards.length else 0 := by
  induction cards with
  | nil => simp [colorCount]
  | cons x xs ih =>
    have hx := hall x (by simp)
    have ih2 := ih (fun item hm => hall item (by simp [hm]))
    unfold colorCount at *
    rw [List.countP_cons, ih2, hx]
    by_cases hc : c = FooterColor.Black <;> simp [hc]
    exact fun hcc => absurd hcc.symm hc

theorem from_set_all_black (numCards : Nat) (rt rd : RecallSettings) :
    ∀ item ∈ (CardList.from_set numCards rt rd).cards,
      item.footer_color = .Black := by
  intro item hm
  unfold CardList.from_set at hm
  simp only [List.mem_append] at hm
  rcases hm with hm | hm <;> split at hm <;>
    simp only [List.mem_map, List.mem_range, List.not_mem_nil] at hm <;>
    (obtain ⟨i, _, rfl⟩ := hm; rfl)

theorem initState_inv (numCards : Nat) (rt rd : RecallSettings) :
    FooterInv (CardList.from_set numCards rt rd).cards.length
      (initState numCards rt rd) := by
  apply inv_of_parts
  · exact le_refl _
  · intro c
    have hall := from_set_all_black numCards rt rd
    have hcc := colorCount_all_black _ hall c
    show (Footer.new _).count c = _
    rw [hcc]
    cases c <;>
      simp [Footer.new, Footer.count, CardList.remaining_unstudied]

theorem colorCount_total (cards : List Item) :
    colorCount cards .Black + colorCount cards .Red + colorCount cards .Yellow +
      colorCount cards .Green = cards.length := by
  induction cards with
  | nil => simp [colorCount]
  | cons x xs ih =>
    unfold colorCount at *
    simp only [List.countP_cons]
    cases hx : x.footer_color <;> simp [hx] <;> omega

/-- Claim C3: for every sequence of `progress`/`regress`/`fail` calls that
the program can execute from session start without panicking, the sum of the
four footer bucket counts equals the number of items created at session
start, at every point in time; a mastered item's removal moves its count
into the Green bucket (`Footer::move(old, Green)`) rather than deleting
it. -/
theorem footer_buckets_sum_constant (numCards : Nat) (rt rd : RecallSettings)
    (ops : List Op) (s2 : CardList × Footer)
    (h : runOps (initState numCards rt rd) ops = some s2) :
    s2.2.total = (CardList.from_set numCards rt rd).cards.length := by
  have hinv := runOps_inv (CardList.from_set numCards rt rd).cards.length ops
    (initState numCards rt rd) s2 (initState_inv numCards rt rd) h
  obtain ⟨s2cl, s2f⟩ := s2
  have hlen : s2cl.cards.length ≤ (CardList.from_set numCards rt rd).cards.length :=
    hinv.1
  have hb : s2f.count .Black = colorCount s2cl.cards .Black := by
    simpa using hinv.2 .Black
  have hr : s2f.count .Red = colorCount s2cl.cards .Red := by
    simpa using hinv.2 .Red
  have hy : s2f.count .Yellow = colorCount s2cl.cards .Yellow := by
    simpa using hinv.2 .Yellow
  have hg : s2f.count .Green = colorCount s2cl.cards .Green +
      ((CardList.from_set numCards rt rd).cards.length - s2cl.cards.length) := by
    simpa using hinv.2 .Green
  have htot := colorCount_total s2cl.cards
  simp only [Footer.count] at hb hr hy hg
  show s2f.black + s2f.red + s2f.yellow + s2f.green = _
  omega

/-- Witness for claim C3: a one-card matching-only session, progressed twice
to mastery; the footer ends at `(0, 0, 0, 1)`, whose total is the initial
item count 1. -/
theorem footer_buckets_sum_constant_witness :
    (Footer.mk 0 0 0 1).total =
      (CardList.from_set 1 ⟨true, false⟩ ⟨false, false⟩).cards.length :=
  footer_buckets_sum_constant 1 ⟨true, false⟩ ⟨false, false⟩
    [.progress 0, .progress 0]
    (⟨[], [], ⟨true, false⟩, ⟨false, false⟩⟩, ⟨0, 0, 0, 1⟩) (by decide)

theorem nuGo_step (len lastv : Nat) (draws : Nat → Nat) (fuel counter : Nat)
    (hlt : counter < 12) :
    nuGo len lastv draws (fuel + 1) counter lastv =
      nuGo len lastv draws fuel (counter + 1) (draws counter % len) := by
  rw [nuGo, if_pos (And.intro rfl hlt)]

theorem nuGo_ne (len lastv : Nat) (draws : Nat → Nat) (fuel counter index : Nat)
    (h : index ≠ lastv) :
    nuGo len lastv draws fuel counter index = index := by
  cases fuel with
  | zero => rfl
  | succ n => rw [nuGo, if_neg (by simp [h])]

theorem nuGo_result_is_draw (len lastv : Nat) (draws : Nat → Nat) :
    ∀ fuel counter, counter + fuel = 12 → counter < 12 →
      ∃ k, counter ≤ k ∧ k < 12 ∧
        nuGo len lastv draws fuel counter lastv = draws k % len := by
  intro fuel
  induction fuel with
  | zero => intro counter hc hlt; omega
  | succ n ih =>
    intro counter hc hlt
    rw [nuGo_step len lastv draws n counter hlt]
    by_cases hd : draws counter % len = lastv
    · rcases Nat.lt_or_ge (counter + 1) 12 with hn | hn
      · obtain ⟨k, hk1, hk2, hk3⟩ := ih (counter + 1) (by omega) hn
        rw [hd]
        exact ⟨k, by omega, hk2, hk3⟩
      · refine ⟨counter, le_refl _, hlt, ?_⟩
        rw [hd]
        have hn0 : n = 0 := by omega
        subst hn0
        rfl
    · exact ⟨counter, le_refl _, hlt, nuGo_ne len lastv draws n (counter + 1) _ hd⟩

theorem nuGo_eq_lastv_all_draws (len lastv : Nat) (draws : Nat → Nat) :
    ∀ fuel counter index, 12 ≤ counter + fuel →
      nuGo len lastv draws fuel counter index = lastv →
      ∀ k, counter ≤ k → k < 12 → draws k % len = lastv := by
  intro fuel
  induction fuel with
  | zero => intro counter index hc hres k hk1 hk2; omega
  | succ n ih =>
    intro counter index hc hres k hk1 hk2
    by_cases hcond : index = lastv ∧ counter < 12
    · rw [nuGo, if_pos hcond] at hres
      by_cases hd : draws counter % len = lastv
      · rcases Nat.eq_or_lt_of_le hk1 with rfl | hk3
        · exact hd
        · exact ih (counter + 1) (draws counter % len) (by omega) hres k hk3 hk2
      · rw [nuGo_ne len lastv draws n (counter + 1) _ hd] at hres
        exact absurd hres hd
    · rw [nuGo, if_neg hcond] at hres
      subst hres
      have h12 : 12 ≤ counter := by
        rcases Nat.lt_or_ge counter 12 with hh | hh
        · exact absurd ⟨rfl, hh⟩ hcond
        · exact hh
      omega

theorem nuGo_all_draws_lastv (len lastv : Nat) (draws : Nat → Nat)
    (hall : ∀ k, k < 12 → draws k % len = lastv) :
    ∀ fuel counter, 12 ≤ counter + fuel →
      nuGo len lastv draws fuel counter lastv = lastv := by
  intro fuel
  induction fuel with
  | zero => intro counter hc; rfl
  | succ n ih =>
    intro counter hc
    by_cases hlt : counter < 12
    · rw [nuGo_step len lastv draws n counter hlt, hall counter hlt]
      exact ih (counter + 1) (by omega)
    · rw [nuGo, if_neg (by omega : ¬(lastv = lastv ∧ counter < 12))]

/-- Claim C6: `next_unstudied(last)` returns `none` iff the active item set
is empty; with exactly one active item it always returns that item (token
0); with at least two active items and a valid `last` token, the result is
one of at most 12 uniform oracle draws, lies in range, and can repeat
`last` only when all 12 draws hit `last` (retries exhausted). -/
theorem next_unstudied_spec (cl : CardList) (last : Option Nat)
    (draws : Nat → Nat) :
    (cl.next_unstudied last draws = none ↔ cl.cards.length = 0) ∧
    (cl.cards.length = 1 → cl.next_unstudied last draws = some 0) ∧
    (∀ lastTok t, 2 ≤ cl.cards.length → last = some lastTok →
      lastTok < cl.cards.length →
      cl.next_unstudied last draws = some t →
      (∃ k, k < 12 ∧ t = draws k % cl.cards.length) ∧
        t < cl.cards.length ∧
        (t = lastTok → ∀ k, k < 12 → draws k % cl.cards.length = lastTok)) := by
  refine ⟨?_, ?_, ?_⟩
  · by_cases h : cl.cards.length = 0 <;> simp [CardList.next_unstudied, h]
  · intro h1
    unfold CardList.next_unstudied
    rw [if_neg (by omega)]
    congr 1
    rw [h1]
    by_cases hl : last.getD usizeMax = 0
    · rw [hl]
      exact nuGo_all_draws_lastv 1 0 draws (fun k _ => Nat.mod_one _) 12 0
        (by omega)
    · obtain ⟨k, _, _, hk3⟩ :=
        nuGo_result_is_draw 1 (last.getD usizeMax) draws 12 0 (by omega)
          (by omega)
      rw [hk3]
      exact Nat.mod_one _
  · intro lastTok t h2 hlast hltok hres
    unfold CardList.next_unstudied at hres
    rw [if_neg (by omega), hlast] at hres
    simp only [Option.getD_some, Option.some.injEq] at hres
    obtain ⟨k, _, hk2, hk3⟩ :=
      nuGo_result_is_draw cl.cards.length lastTok draws 12 0 (by omega)
        (by omega)
    refine ⟨⟨k, hk2, by rw [← hres, hk3]⟩, ?_, ?_⟩
    · rw [← hres, hk3]
      exact Nat.mod_lt _ (by omega)
    · intro ht j hj
      apply nuGo_eq_lastv_all_draws cl.cards.length lastTok draws 12 0 lastTok
        (by omega) _ j (Nat.zero_le j) hj
      rw [hres, ht]

/-- Witness for claim C6 at a concrete two-item list, `last = some 0` and
the constant oracle drawing 1: the selection returns token 1, which is a
draw, in range, and distinct from `last`. -/
theorem next_unstudied_spec_witness :
    (∃ k, k < 12 ∧ 1 = (fun (_ : Nat) => 1) k %
      (CardList.mk [⟨0, .Term, .Matching false, .Black, 0, 0⟩,
        ⟨1, .Term, .Matching false, .Black, 0, 0⟩] [] ⟨true, false⟩
        ⟨false, false⟩).cards.length) ∧
    1 < (CardList.mk [⟨0, .Term, .Matching false, .Black, 0, 0⟩,
        ⟨1, .Term, .Matching false, .Black, 0, 0⟩] [] ⟨true, false⟩
        ⟨false, false⟩).cards.length ∧
    ((1 : Nat) = 0 → ∀ k, k < 12 → (fun (_ : Nat) => 1) k %
      (CardList.mk [⟨0, .Term, .Matching false, .Black, 0, 0⟩,
        ⟨1, .Term, .Matching false, .Black, 0, 0⟩] [] ⟨true, false⟩
        ⟨false, false⟩).cards.length = 0) :=
  (next_unstudied_spec
    (CardList.mk [⟨0, .Term, .Matching false, .Black, 0, 0⟩,
      ⟨1, .Term, .Matching false, .Black, 0, 0⟩] [] ⟨true, false⟩
      ⟨false, false⟩) (some 0) (fun _ => 1)).2.2 0 1 (by decide) rfl
    (by decide) (by rfl)

theorem getD_mem_of_pos (deck : List String) (i : Nat)
    (hdeck : deck ≠ []) : deck.getD (i % deck.length) "" ∈ deck := by
  have hlt : i % deck.length < deck.length :=
    Nat.mod_lt _ (List.length_pos.mpr hdeck)
  rw [List.getD_eq_getElem deck "" hlt]
  exact List.getElem_mem hlt

theorem fillSlot_mem (deck prev : List String) (draws : Nat → Nat)
    (hdeck : deck ≠ []) :
    ∀ attempts ctr, (fillSlot deck prev draws attempts ctr).1 ∈ deck := by
  intro attempts
  induction attempts with
  | zero =>
    intro ctr
    exact getD_mem_of_pos deck _ hdeck
  | succ n ih =>
    intro ctr
    rw [fillSlot]
    split
    · exact getD_mem_of_pos deck _ hdeck
    · exact ih (ctr + 1)

theorem fillSlot_avoids (deck prev : List String) (draws : Nat → Nat) :
    ∀ attempts ctr, (fillSlot deck prev draws attempts ctr).1 ∉ prev ∨
      ∀ k, k < attempts → deck.getD (draws (ctr + k) % deck.length) "" ∈ prev := by
  intro attempts
  induction attempts with
  | zero =>
    intro ctr
    right
    intro k hk
    omega
  | succ n ih =>
    intro ctr
    rw [fillSlot]
    split
    · rename_i hcond
      rcases hcond with hn | hnotin
      · by_cases hin : deck.getD (draws ctr % deck.length) "" ∈ prev
        · right
          intro k hk
          have hk0 : k = 0 := by omega
          subst hk0
          simpa using hin
        · left
          exact hin
      · left
        exact hnotin
    · rename_i hcond
      push_neg at hcond
      obtain ⟨hn, hin⟩ := hcond
      rcases ih (ctr + 1) with hgood | hall
      · left
        exact hgood
      · right
        intro k hk
        cases k with
        | zero => simpa using hin
        | succ j =>
          have := hall j (by omega)
          have harith : ctr + 1 + j = ctr + (j + 1) := by omega
          rwa [harith] at this

/-- Claim C7: with a nonempty deck, `matching_answers_for` produces 4
answers that include the correct answer (the tested side's display text of
the studied card); slots 1-3 hold cards' display texts drawn from the deck,
each with up to 12 retries that stop at the first draw not duplicating the
correct answer or an earlier slot (a duplicate is kept only when every one
of the slot's draws was a duplicate); the output reaches the screen only
through a permutation (`answers.shuffle`), so the correct answer's position
is not fixed at slot 0; and whenever the retries succeeded for every slot
the correct answer appears exactly once. -/
theorem matching_answers_spec (deck : List String) (correct : String)
    (draws : Nat → Nat) (shuffled : List String) (hdeck : deck ≠ [])
    (hshuf : shuffled.Perm (matching_answers_for deck correct draws)) :
    correct ∈ shuffled ∧
    shuffled.length = 4 ∧
    (∀ a ∈ (matching_answers_for deck correct draws).tail, a ∈ deck) ∧
    (∀ prev attempts ctr, (fillSlot deck prev draws attempts ctr).1 ∉ prev ∨
      ∀ k, k < attempts →
        deck.getD (draws (ctr + k) % deck.length) "" ∈ prev) ∧
    ((∀ a ∈ (matching_answers_for deck correct draws).tail, a ≠ correct) →
      shuffled.count correct = 1) := by
  refine ⟨?_, ?_, ?_, ?_, ?_⟩
  · apply hshuf.mem_iff.mpr
    simp [matching_answers_for]
  · rw [hshuf.length_eq]
    rfl
  · intro a ha
    simp only [matching_answers_for, List.tail_cons, List.mem_cons,
      List.not_mem_nil, or_false] at ha
    rcases ha with rfl | rfl | rfl
    · exact fillSlot_mem deck _ draws hdeck 12 0
    · exact fillSlot_mem deck _ draws hdeck 12 _
    · exact fillSlot_mem deck _ draws hdeck 12 _
  · exact fun prev attempts ctr => fillSlot_avoids deck prev draws attempts ctr
  · intro hdist
    rw [hshuf.count_eq]
    have h1 := hdist (fillSlot deck [correct] draws 12 0).1
      (by simp [matching_answers_for])
    have h2 := hdist (fillSlot deck
      [correct, (fillSlot deck [correct] draws 12 0).1] draws 12
      (fillSlot deck [correct] draws 12 0).2).1
      (by simp [matching_answers_for])
    have h3 := hdist (fillSlot deck
      [correct, (fillSlot deck [correct] draws 12 0).1,
        (fillSlot deck [correct, (fillSlot deck [correct] draws 12 0).1]
          draws 12 (fillSlot deck [correct] draws 12 0).2).1] draws 12
      (fillSlot deck [correct, (fillSlot deck [correct] draws 12 0).1]
        draws 12 (fillSlot deck [correct] draws 12 0).2).2).1
      (by simp [matching_answers_for])
    simp only [matching_answers_for]
    simp [List.count_cons, h1, h2, h3]

/-- Witness for claim C7: deck ["a","b","c","d"], correct answer "a", the
identity oracle and the shuffle that swaps the first two slots — the correct
answer is present, away from slot 0, and appears exactly once. -/
theorem matching_answers_spec_witness :
    "a" ∈ ["b", "a", "c", "d"] ∧
    List.count "a" ["b", "a", "c", "d"] = 1 := by
  have h := matching_answers_spec ["a", "b", "c", "d"] "a" (fun k => k)
    ["b", "a", "c", "d"] (by decide) (by decide)
  exact ⟨h.1, h.2.2.2.2 (by decide)⟩

/-- Counterexample to claim C8: from a reachable session state (one
matching-only item that has failed once), calling `fails()` twice appends
the same still-active item to the ledger twice — the claimed protection
against double-counting "across repeated calls to fails()" does not exist in
the code. -/
theorem fails_double_call_duplicates :
    (runOps (initState 1 ⟨true, false⟩ ⟨false, false⟩) [.fail 0]).map
        (fun s => ((s.1.fails).fails).removed) =
      some [⟨0, .Term, 1, 0⟩, ⟨0, .Term, 1, 0⟩] := by
  decide

theorem stepOp_ledgerPos (cl : CardList) (f : Footer)
    (s2 : CardList × Footer) (op : Op) (hl : LedgerPos cl)
    (hstep : stepOp (cl, f) op = some s2) : LedgerPos s2.1 := by
  cases op with
  | progress tok =>
    simp only [stepOp] at hstep
    unfold CardList.progress at hstep
    split at hstep
    · exact absurd hstep (by simp)
    · rename_i card hget
      split at hstep
      · exact absurd hstep (by simp)
      · rename_i st2 color hprog
        dsimp only at hstep
        simp only [Option.some.injEq] at hstep
        subst hstep
        exact hl
      · rename_i color hprog
        dsimp only at hstep
        simp only [Option.some.injEq] at hstep
        subst hstep
        intro fi hfi
        simp only at hfi
        split at hfi
        · rename_i hfailed
          rcases List.mem_append.mp hfi with hin | hin
          · exact hl fi hin
          · simp only [List.mem_singleton] at hin
            subst hin
            simp only [Item.hasFailed, Bool.or_eq_true, ne_eq,
              bne_iff_ne] at hfailed
            simp only [FailedItem.ofItem]
            omega
        · exact hl fi hfi
  | regress tok =>
    simp only [stepOp] at hstep
    unfold CardList.regress at hstep
    split at hstep
    · exact absurd hstep (by simp)
    · rename_i card hget
      split at hstep
      · simp only [Option.some.injEq] at hstep
        subst hstep
        exact hl
      · rename_i st2 color hreg
        dsimp only at hstep
        simp only [Option.some.injEq] at hstep
        subst hstep
        exact hl
  | fail tok =>
    simp only [stepOp] at hstep
    unfold CardList.fail at hstep
    split at hstep
    · exact absurd hstep (by simp)
    · rename_i card hget
      split at hstep <;>
        (dsimp only at hstep
         simp at hstep
         subst hstep
         exact hl)

theorem runOps_ledgerPos (ops : List Op) (s s2 : CardList × Footer)
    (hl : LedgerPos s.1) (h : runOps s ops = some s2) : LedgerPos s2.1 := by
  induction ops generalizing s with
  | nil =>
    unfold runOps at h
    simp only [Option.some.injEq] at h
    subst h
    exact hl
  | cons op ops ih =>
    obtain ⟨cl, f⟩ := s
    unfold runOps at h
    cases hstep : stepOp (cl, f) op with
    | none => rw [hstep] at h; exact absurd h (by simp)
    | some smid =>
      rw [hstep] at h
      simp only [Option.some_bind] at h
      exact ih smid (stepOp_ledgerPos cl f smid op hl hstep) h

/-- Claim C8 (amended): `fails()` returns the removed-items ledger extended
with every currently active item whose matching or text fail count is
nonzero, without removing those items from the active set; in any reachable
session state every entry of the result has nonzero `total_fails`, so an
item mastered with zero wrong answers never appears; and in the concrete
fail-once-then-master scenario the result holds exactly one entry, with
`total_fails` equal to 1.  (A single call cannot double-count — ledger
entries are no longer active — but the code does not protect repeated
calls: a second `fails()` call re-appends still-active failed items.) -/
theorem fails_ledger_spec :
    (∀ cl : CardList, (cl.fails).cards = cl.cards ∧
      (cl.fails).removed =
        cl.removed ++ (cl.cards.filter Item.hasFailed).map FailedItem.ofItem) ∧
    (∀ (numCards : Nat) (rt rd : RecallSettings) (ops : List Op)
        (s2 : CardList × Footer),
      runOps (initState numCards rt rd) ops = some s2 →
      ∀ fi ∈ (s2.1.fails).removed, 0 < fi.total_fails) ∧
    ((runOps (initState 1 ⟨true, false⟩ ⟨false, false⟩)
        [.fail 0, .regress 0, .progress 0, .progress 0]).map
          (fun s => (s.1.fails).removed) = some [⟨0, .Term, 1, 0⟩] ∧
      FailedItem.total_fails ⟨0, .Term, 1, 0⟩ = 1) := by
  refine ⟨?_, ?_, by decide⟩
  · intro cl
    exact ⟨rfl, rfl⟩
  · intro numCards rt rd ops s2 hrun fi hfi
    have hl : LedgerPos s2.1 :=
      runOps_ledgerPos ops (initState numCards rt rd) s2
        (by intro fi hfi2; exact absurd hfi2 (by simp [initState, CardList.from_set]))
        hrun
    simp only [CardList.fails] at hfi
    rcases List.mem_append.mp hfi with hin | hin
    · have := hl fi hin
      simp only [FailedItem.total_fails]
      omega
    · simp only [List.mem_map, List.mem_filter] at hin
      obtain ⟨item, ⟨hact, hfail⟩, rfl⟩ := hin
      simp only [Item.hasFailed, Bool.or_eq_true, ne_eq, bne_iff_ne] at hfail
      simp only [FailedItem.ofItem, FailedItem.total_fails]
      omega

/-- Witness for the amended claim C8: the ledger entry produced by one
wrong answer followed by mastery has positive total fails. -/
theorem fails_ledger_spec_witness :
    0 < FailedItem.total_fails ⟨0, .Term, 1, 0⟩ :=
  fails_ledger_spec.2.1 1 ⟨true, false⟩ ⟨false, false⟩
    [.fail 0, .regress 0, .progress 0, .progress 0]
    (⟨[], [⟨0, .Term, 1, 0⟩], ⟨true, false⟩, ⟨false, false⟩⟩, ⟨0, 0, 0, 1⟩)
    (by decide) ⟨0, .Term, 1, 0⟩ (by decide)

/-- Counterexample to claim C9: two active items, a token issued for slot 0
(card 0, at its confirmation stage).  `progress` masters and swap-removes
card 0; indexing with the stale token afterwards silently yields card 1 — a
different item than the one the token was issued for, with no error. -/
theorem stale_token_after_removal :
    ((CardList.mk [⟨0, .Term, .Matching true, .Yellow, 0, 0⟩,
        ⟨1, .Term, .Matching false, .Black, 0, 0⟩] [] ⟨true, false⟩
        ⟨false, false⟩).progress 0 (Footer.mk 1 0 1 0)).map
      (fun s => (s.1.cards[0]?).map Item.cardId) = some (some 1) := by
  decide

theorem swapRemove_getElem_front (l : List Item) (i : Nat) (a : Item)
    (hlast : l.getLast? = some a) (hi : i + 1 < l.length) :
    (swapRemove l i)[i]? = some a := by
  unfold swapRemove
  rw [hlast]
  show ((l.set i a).dropLast)[i]? = some a
  rw [List.dropLast_eq_take, List.getElem?_take]
  have h3 : i < (l.set i a).length - 1 := by
    simp only [List.length_set]
    omega
  simp only [if_pos h3]
  rw [List.getElem?_set_self]
  simp [Nat.lt_of_succ_lt hi]

/-- Claim C9 (amended): tokens are plain indices into the active vector and
are not invalidated by removal.  On the removal path, `progress` swap-removes
the item: the active list shrinks by one, and when the token addressed any
slot but the final one, indexing with the stale token afterwards silently
yields the formerly last item — a different item than the one the token was
issued for whenever the two differ. -/
theorem stale_token_aliases_spec (cl : CardList) (tok : Nat) (f : Footer)
    (card : Item) (c : FooterColor)
    (hget : cl.cards[tok]? = some card)
    (hprog : card.next_study_type.progress (cl.recall_settings card.side) =
      some (none, c)) :
    ∃ cl2 f2, cl.progress tok f = some (cl2, f2) ∧
      cl2.cards = swapRemove cl.cards tok ∧
      cl2.cards.length + 1 = cl.cards.length ∧
      ∀ lastItem, cl.cards.getLast? = some lastItem →
        tok + 1 < cl.cards.length → cl2.cards[tok]? = some lastItem := by
  obtain ⟨htok, hcard⟩ := List.getElem?_eq_some_iff.mp hget
  refine ⟨{ cl with
      cards := swapRemove cl.cards tok,
      removed := if card.hasFailed then cl.removed ++ [FailedItem.ofItem card]
        else cl.removed },
    f.move card.footer_color c, ?_, rfl, ?_, ?_⟩
  · unfold CardList.progress
    rw [hget]
    dsimp only
    rw [hprog]
  · show (swapRemove cl.cards tok).length + 1 = cl.cards.length
    rw [length_swapRemove cl.cards tok htok]
    omega
  · intro lastItem hlast hfront
    exact swapRemove_getElem_front cl.cards tok lastItem hlast hfront

/-- Witness for the amended claim C9: in the concrete two-item list, the
removal shrinks the active list to one item and the stale token 0 now
addresses card 1. -/
theorem stale_token_aliases_spec_witness :
    ((CardList.mk [⟨0, .Term, .Matching true, .Yellow, 0, 0⟩,
        ⟨1, .Term, .Matching false, .Black, 0, 0⟩] [] ⟨true, false⟩
        ⟨false, false⟩).progress 0 (Footer.mk 1 0 1 0)).map
      (fun s => (s.1.cards.length, s.1.cards[0]?)) =
    some (1, some ⟨1, .Term, .Matching false, .Black, 0, 0⟩) := by
  obtain ⟨cl2, f2, h1, h2, h3, h4⟩ := stale_token_aliases_spec
    (CardList.mk [⟨0, .Term, .Matching true, .Yellow, 0, 0⟩,
      ⟨1, .Term, .Matching false, .Black, 0, 0⟩] [] ⟨true, false⟩
      ⟨false, false⟩) 0 (Footer.mk 1 0 1 0)
    ⟨0, .Term, .Matching true, .Yellow, 0, 0⟩ .Green (by decide) (by decide)
  rw [h1]
  have h5 := h4 ⟨1, .Term, .Matching false, .Black, 0, 0⟩ (by decide) (by decide)
  have hlen : cl2.cards.length = 1 := by
    simp at h3
    omega
  show some (cl2.cards.length, cl2.cards[0]?) =
    some (1, some ⟨1, .Term, .Matching false, .Black, 0, 0⟩)
  rw [h5, hlen]

theorem getElem?_set_self_of_lt (l : List α) (i : Nat) (a : α)
    (h : i < l.length) : (l.set i a)[i]? = some a := by
  rw [List.getElem?_set_self]
  simp [h]

theorem fail_characterize (cl : CardList) (tok : Nat) (card : Item)
    (hget : cl.cards[tok]? = some card) :
    (∀ b, card.next_study_type = .Matching b →
      cl.fail tok = some { cl with
        cards := cl.cards.set tok
          (Item.mk card.cardId card.side card.next_study_type
            card.footer_color (failCountInc card.match_fails)
            card.text_fails) }) ∧
    (∀ b, card.next_study_type = .Text b →
      cl.fail tok = some { cl with
        cards := cl.cards.set tok
          (Item.mk card.cardId card.side card.next_study_type
            card.footer_color card.match_fails
            (failCountInc card.text_fails)) }) := by
  constructor <;> intro b hst <;>
    (unfold CardList.fail
     rw [hget]
     dsimp only
     rw [hst])

theorem regress_characterize (cl : CardList) (tok : Nat) (f : Footer)
    (card : Item) (hget : cl.cards[tok]? = some card) :
    (card.next_study_type.regress (cl.recall_settings card.side) = none →
      cl.regress tok f = some (cl, f)) ∧
    (∀ st2 color,
      card.next_study_type.regress (cl.recall_settings card.side) =
        some (st2, color) →
      cl.regress tok f = some ({ cl with
        cards := cl.cards.set tok
          (Item.mk card.cardId card.side st2 color card.match_fails
            card.text_fails) },
        f.move card.footer_color color)) := by
  constructor
  · intro hreg
    unfold CardList.regress
    rw [hget]
    dsimp only
    rw [hreg]
  · intro st2 color hreg
    unfold CardList.regress
    rw [hget]
    dsimp only
    rw [hreg]

theorem progress_characterize (cl : CardList) (tok : Nat) (f : Footer)
    (card : Item) (hget : cl.cards[tok]? = some card) :
    (∀ st2 color,
      card.next_study_type.progress (cl.recall_settings card.side) =
        some (some st2, color) →
      cl.progress tok f = some ({ cl with
        cards := cl.cards.set tok
          (Item.mk card.cardId card.side st2 color card.match_fails
            card.text_fails) },
        f.move card.footer_color color)) ∧
    (∀ color,
      card.next_study_type.progress (cl.recall_settings card.side) =
        some (none, color) →
      cl.progress tok f = some ({ cl with
        cards := swapRemove cl.cards tok,
        removed := if card.hasFailed then
          cl.removed ++ [FailedItem.ofItem card] else cl.removed },
        f.move card.footer_color color)) := by
  constructor
  · intro st2 color hprog
    unfold CardList.progress
    rw [hget]
    dsimp only
    rw [hprog]
  · intro color hprog
    unfold CardList.progress
    rw [hget]
    dsimp only
    rw [hprog]

theorem bumpMatches_card_list (w : World) (side : Side) :
    (w.bumpMatches side).card_list = w.card_list := by
  cases side <;> rfl

theorem bumpMatches_footer (w : World) (side : Side) :
    (w.bumpMatches side).footer = w.footer := by
  cases side <;> rfl

/-- Counterexample to claim C4: a one-item matching-only world; two
consecutive wrong guesses in the same presentation leave the item's matching
fail count at 1, not 2 — the second wrong guess increments nothing, because
`fail` is only called inside the `if !*failed` guard (world.rs lines
228-233). -/
theorem second_wrong_guess_does_not_count :
    (((World.mk (CardList.mk [⟨0, .Term, .Matching false, .Black, 0, 0⟩] []
        ⟨true, false⟩ ⟨false, false⟩) (Footer.mk 1 0 0 0) 0 0 0 0
        (some (.Matching 0 false))).matchingGuess false).bind
      (fun w => w.matchingGuess false)).map
        (fun w => (w.card_list.cards[0]?).map Item.match_fails) =
    some (some 1) := by
  decide

/-- Claim C4 (amended): within one presentation only the first wrong guess
has any effect: it increments the fail counter selected by the item's
current StudyType (the matching- or text-specific counter — `fail` runs
before `regress`, so the pre-regression stage selects it) and triggers the
single state regression, flipping the presentation's failed flag; a second
wrong guess before advancing leaves the world completely unchanged —
including the fail counter, which, contrary to the claim, does not increment
on every wrong guess. -/
theorem wrong_guess_only_first_counts (w : World) (studying : Nat)
    (card : Item) (hcard : w.card_list.cards[studying]? = some card) :
    (w.typ = some (.Matching studying true) →
      w.matchingGuess false = some w) ∧
    (w.typ = some (.Matching studying false) →
      ∃ w2, w.matchingGuess false = some w2 ∧
        w2.typ = some (.Matching studying true) ∧
        ∃ card2, w2.card_list.cards[studying]? = some card2 ∧
          (∀ b, card.next_study_type = .Matching b →
            card2.match_fails = failCountInc card.match_fails ∧
            card2.text_fails = card.text_fails) ∧
          (∀ b, card.next_study_type = .Text b →
            card2.text_fails = failCountInc card.text_fails ∧
            card2.match_fails = card.match_fails)) := by
  obtain ⟨htok, hcardeq⟩ := List.getElem?_eq_some_iff.mp hcard
  constructor
  · intro htyp
    unfold World.matchingGuess
    rw [htyp]
    dsimp only
    rw [hcard]
  · intro htyp
    unfold World.matchingGuess
    rw [htyp]
    dsimp only
    rw [hcard]
    dsimp only
    rw [bumpMatches_card_list, bumpMatches_footer]
    cases hst : card.next_study_type with
    | Matching b =>
      rw [(fail_characterize w.card_list studying card hcard).1 b hst]
      dsimp only
      have hget2 := getElem?_set_self_of_lt w.card_list.cards studying
        (Item.mk card.cardId card.side card.next_study_type
          card.footer_color (failCountInc card.match_fails)
          card.text_fails) htok
      have hchar := regress_characterize
        { w.card_list with
          cards := w.card_list.cards.set studying
            (Item.mk card.cardId card.side card.next_study_type
              card.footer_color (failCountInc card.match_fails)
              card.text_fails) } studying w.footer
        (Item.mk card.cardId card.side card.next_study_type
          card.footer_color (failCountInc card.match_fails)
          card.text_fails) hget2
      cases hreg : StudyType.regress card.next_study_type
        (w.card_list.recall_settings card.side) with
      | none =>
        rw [hchar.1 hreg]
        refine ⟨_, rfl, rfl, ?_⟩
        refine ⟨_, hget2, ?_, ?_⟩
        · intro b2 hst2
          exact ⟨rfl, rfl⟩
        · intro b2 hst2
          cases hst2
      | some pr =>
        obtain ⟨st2, color⟩ := pr
        rw [hchar.2 st2 color hreg]
        dsimp only
        have hget3 := getElem?_set_self_of_lt
          (w.card_list.cards.set studying
            (Item.mk card.cardId card.side card.next_study_type
              card.footer_color (failCountInc card.match_fails)
              card.text_fails)) studying
          (Item.mk card.cardId card.side st2 color
            (failCountInc card.match_fails) card.text_fails)
          (by simpa [List.length_set] using htok)
        refine ⟨_, rfl, rfl, ?_⟩
        refine ⟨_, hget3, ?_, ?_⟩
        · intro b2 hst2
          exact ⟨rfl, rfl⟩
        · intro b2 hst2
          cases hst2
    | Text b =>
      rw [(fail_characterize w.card_list studying card hcard).2 b hst]
      dsimp only
      have hget2 := getElem?_set_self_of_lt w.card_list.cards studying
        (Item.mk card.cardId card.side card.next_study_type
          card.footer_color card.match_fails
          (failCountInc card.text_fails)) htok
      have hchar := regress_characterize
        { w.card_list with
          cards := w.card_list.cards.set studying
            (Item.mk card.cardId card.side card.next_study_type
              card.footer_color card.match_fails
              (failCountInc card.text_fails)) } studying w.footer
        (Item.mk card.cardId card.side card.next_study_type
          card.footer_color card.match_fails
          (failCountInc card.text_fails)) hget2
      cases hreg : StudyType.regress card.next_study_type
        (w.card_list.recall_settings card.side) with
      | none =>
        rw [hchar.1 hreg]
        refine ⟨_, rfl, rfl, ?_⟩
        refine ⟨_, hget2, ?_, ?_⟩
        · intro b2 hst2
          cases hst2
        · intro b2 hst2
          exact ⟨rfl, rfl⟩
      | some pr =>
        obtain ⟨st2, color⟩ := pr
        rw [hchar.2 st2 color hreg]
        dsimp only
        have hget3 := getElem?_set_self_of_lt
          (w.card_list.cards.set studying
            (Item.mk card.cardId card.side card.next_study_type
              card.footer_color card.match_fails
              (failCountInc card.text_fails))) studying
          (Item.mk card.cardId card.side st2 color card.match_fails
            (failCountInc card.text_fails))
          (by simpa [List.length_set] using htok)
        refine ⟨_, rfl, rfl, ?_⟩
        refine ⟨_, hget3, ?_, ?_⟩
        · intro b2 hst2
          cases hst2
        · intro b2 hst2
          exact ⟨rfl, rfl⟩

/-- Witness for the amended claim C4: a concrete one-item world whose
presentation has already registered a wrong guess; another wrong guess
changes nothing. -/
theorem wrong_guess_only_first_counts_witness :
    (World.mk (CardList.mk [⟨0, .Term, .Matching false, .Black, 1, 0⟩] []
      ⟨true, false⟩ ⟨false, false⟩) (Footer.mk 1 0 0 0) 1 0 0 0
      (some (.Matching 0 true))).matchingGuess false =
    some (World.mk (CardList.mk [⟨0, .Term, .Matching false, .Black, 1, 0⟩] []
      ⟨true, false⟩ ⟨false, false⟩) (Footer.mk 1 0 0 0) 1 0 0 0
      (some (.Matching 0 true))) :=
  (wrong_guess_only_first_counts
    (World.mk (CardList.mk [⟨0, .Term, .Matching false, .Black, 1, 0⟩] []
      ⟨true, false⟩ ⟨false, false⟩) (Footer.mk 1 0 0 0) 1 0 0 0
      (some (.Matching 0 true))) 0 ⟨0, .Term, .Matching false, .Black, 1, 0⟩
    (by decide)).1 rfl

/-- Claim C10: in the `TextFailed` state the Shift-Tab override performs two
consecutive `progress` calls on the studied item; for an item of a text-only
side that was at stage `Text false` when the wrong answer was submitted (so
the preceding `regress` was a no-op), the override walks
`Text false → Text true → removed`: the active list shrinks by one and the
footer moves the item through Yellow into Green — the item is mastered by a
single wrong answer plus the override, skipping the `Text true` confirmation
repetition that a correct answer would have required. -/
theorem backtab_override_masters_immediately (w : World) (studying : Nat)
    (card : Item) (htyp : w.typ = some (.TextFailed studying))
    (hcard : w.card_list.cards[studying]? = some card)
    (hst : card.next_study_type = .Text false)
    (hrs : w.card_list.recall_settings card.side = ⟨false, true⟩) :
    card.next_study_type.regress (w.card_list.recall_settings card.side) =
      none ∧
    ∃ w2, w.textFailedBackTab = some w2 ∧
      w2.card_list.cards.length + 1 = w.card_list.cards.length ∧
      w2.footer =
        (w.footer.move card.footer_color .Yellow).move .Yellow .Green := by
  obtain ⟨htok, hcardeq⟩ := List.getElem?_eq_some_iff.mp hcard
  constructor
  · rw [hst, hrs]
    rfl
  · unfold World.textFailedBackTab
    rw [htyp]
    dsimp only
    rw [(progress_characterize w.card_list studying w.footer card hcard).1
      (.Text true) .Yellow (by rw [hst, hrs]; rfl)]
    dsimp only
    have hget2 := getElem?_set_self_of_lt w.card_list.cards studying
      (Item.mk card.cardId card.side (.Text true) .Yellow card.match_fails
        card.text_fails) htok
    have hrs2 : ({ w.card_list with
        cards := w.card_list.cards.set studying
          (Item.mk card.cardId card.side (.Text true) .Yellow
            card.match_fails card.text_fails) } :
        CardList).recall_settings card.side = ⟨false, true⟩ := by
      rw [← hrs]
      cases hside : card.side <;> rfl
    rw [(progress_characterize _ studying _
      (Item.mk card.cardId card.side (.Text true) .Yellow card.match_fails
        card.text_fails) hget2).2 .Green (by rw [hrs2]; rfl)]
    refine ⟨_, rfl, ?_, rfl⟩
    show (swapRemove (w.card_list.cards.set studying
      (Item.mk card.cardId card.side (.Text true) .Yellow card.match_fails
        card.text_fails)) studying).length + 1 = w.card_list.cards.length
    rw [length_swapRemove _ _ (by simpa [List.length_set] using htok)]
    simp only [List.length_set]
    omega

/-- Witness for claim C10: one text-only item that failed once at
`Text false`; the override masters it immediately — the active list becomes
empty and the footer bar ends all-Green. -/
theorem backtab_override_masters_immediately_witness :
    (StudyType.Text false).regress ⟨false, true⟩ = none ∧
    ((World.mk (CardList.mk [⟨0, .Term, .Text false, .Black, 0, 1⟩] []
        ⟨false, true⟩ ⟨false, false⟩) (Footer.mk 1 0 0 0) 0 0 1 0
        (some (.TextFailed 0))).textFailedBackTab).map
      (fun w2 => (w2.card_list.cards.length, w2.footer)) =
    some (0, Footer.mk 0 0 0 1) := by
  obtain ⟨h0, w2, h1, h2, h3⟩ := backtab_override_masters_immediately
    (World.mk (CardList.mk [⟨0, .Term, .Text false, .Black, 0, 1⟩] []
      ⟨false, true⟩ ⟨false, false⟩) (Footer.mk 1 0 0 0) 0 0 1 0
      (some (.TextFailed 0))) 0 ⟨0, .Term, .Text false, .Black, 0, 1⟩
    rfl (by decide) rfl (by decide)
  refine ⟨?_, ?_⟩
  · exact h0
  rw [h1]
  have h4 : w2.card_list.cards.length + 1 = 1 := h2
  have hlen : w2.card_list.cards.length = 0 := by omega
  show some (w2.card_list.cards.length, w2.footer) = _
  rw [hlen, h3]
  rfl
